import Mathlib

/-!
Shallow embedding of the grid wave simulator (fluid.c, gridfluid.c,
realfluid.c) and proofs about its specified behavior.

The C code stores two flat `float` buffers of size `GRID_WIDTH * GRID_HEIGHT`
indexed by `idx = y * GRID_WIDTH + x`.  We model each buffer as a total
function `ℤ → ℤ → α` over cell coordinates (all in-range accesses of the
source translate directly; the flat-index arithmetic `idx ± 1`,
`idx ± GRID_WIDTH` becomes `(x ± 1, y)`, `(x, y ∓ 1)`).  Float arithmetic is
idealized as exact arithmetic in a linear ordered field `α` (instantiated at
`ℚ` for executable checks and at `ℝ` where the source uses `sqrtf`/`cosf`).
Grid dimensions `W`, `H` are parameters (the three program variants differ
only in the size constants they define).
-/

namespace FluidSim

/-- The FluidGrid struct shared by all three source files: two height
buffers and a damping factor (0.99 at init). -/
structure Fluid (α : Type) where
  current : ℤ → ℤ → α
  previous : ℤ → ℤ → α
  damping : α

variable {α : Type} [LinearOrderedField α]

/-- The interior-cell guard used by add_disturbance in gridfluid.c and
realfluid.c (and by fluid.c for the center cell), and the cell range of the
update loops: `x >= 1 && x < GRID_WIDTH - 1 && y >= 1 && y < GRID_HEIGHT - 1`. -/
def interiorCheck (W H x y : ℤ) : Prop :=
  1 ≤ x ∧ x < W - 1 ∧ 1 ≤ y ∧ y < H - 1

instance (W H x y : ℤ) : Decidable (interiorCheck W H x y) :=
  inferInstanceAs (Decidable (1 ≤ x ∧ x < W - 1 ∧ 1 ≤ y ∧ y < H - 1))

/-- add_disturbance of gridfluid.c (lines 62-67) and realfluid.c (lines
97-102): if the target is an interior cell, add `intensity` to
`previous[y*W+x]`; otherwise do nothing. -/
def add_disturbance (W H : ℤ) (f : Fluid α) (x y : ℤ) (intensity : α) :
    Fluid α :=
  if interiorCheck W H x y then
    { f with previous := fun p q =>
        if p = x ∧ q = y then f.previous p q + intensity
        else f.previous p q }
  else f

/-- The stencil loop of update_fluid (gridfluid.c lines 35-53, realfluid.c
lines 70-88) as a function of the pre-loop buffers.  The loop writes each
interior `current[idx]` exactly once, reading only `previous` (never written
inside the loop) and the cell's own not-yet-overwritten `current[idx]`, so
the in-place loop equals this per-cell function of the original buffers.
Cells outside the interior are not written and keep their `current` value.
gridfluid.c computes `2*p - c + lap*0.25` and then multiplies by damping in
a separate statement; realfluid.c folds the damping factor into one
expression; both equal `(2*p - c + lap*0.25) * damping`. -/
def compute_current (W H : ℤ) (f : Fluid α) : ℤ → ℤ → α := fun x y =>
  if interiorCheck W H x y then
    (2 * f.previous x y - f.current x y +
        (f.previous (x - 1) y + f.previous (x + 1) y +
            f.previous x (y - 1) + f.previous x (y + 1) -
            4 * f.previous x y) * (1 / 4)) *
      f.damping
  else f.current x y

/-- update_fluid (gridfluid.c lines 33-60, realfluid.c lines 68-95): run the
stencil loop writing into `current`, then swap the two buffer pointers.
After the call the buffer named `current` is the old `previous` buffer and
the freshly computed values live in the buffer named `previous`. -/
def update_fluid (W H : ℤ) (f : Fluid α) : Fluid α :=
  { current := f.previous
    previous := compute_current W H f
    damping := f.damping }

/-- A zero-filled field with damping 0.99, as produced by init_fluid. -/
def zeroFluid : Fluid ℚ :=
  { current := fun _ _ => 0, previous := fun _ _ => 0, damping := 99 / 100 }

/-- The scenario field of the end-to-end spec test: 10×10, damping 0.99,
after a single point injection of intensity 10 at (5,5). -/
def fluidC1 : Fluid ℚ := add_disturbance 10 10 zeroFluid 5 5 10

/-- The scenario field after one step. -/
def steppedC1 : Fluid ℚ := update_fluid 10 10 fluidC1

/-- C2: update_fluid writes the stencil results into `current` and then
exchanges the two buffer pointers: afterwards the buffer readable as
`current` is element-wise the pre-call `previous` buffer (the values
injection wrote), the newly computed interior values (the claimed stencil
formula) reside in the buffer now named `previous`, and damping is
unchanged. -/
theorem update_fluid_swap_semantics (W H : ℤ) (f : Fluid α) :
    (∀ x y, (update_fluid W H f).current x y = f.previous x y) ∧
      (∀ x y, (update_fluid W H f).previous x y = compute_current W H f x y) ∧
      (∀ x y, interiorCheck W H x y →
        (update_fluid W H f).previous x y =
          f.damping * (2 * f.previous x y - f.current x y +
            (1 / 4) * (f.previous (x - 1) y + f.previous (x + 1) y +
              f.previous x (y - 1) + f.previous x (y + 1) -
              4 * f.previous x y))) ∧
      (update_fluid W H f).damping = f.damping := by
  refine ⟨fun _ _ => rfl, fun _ _ => rfl, fun x y h => ?_, rfl⟩
  show compute_current W H f x y = _
  rw [compute_current, if_pos h]
  ring

/-- Witness for update_fluid_swap_semantics at a concrete field. -/
theorem update_fluid_swap_semantics_check :
    (∀ x y, (update_fluid 10 10 fluidC1).current x y = fluidC1.previous x y) ∧
      (∀ x y, (update_fluid 10 10 fluidC1).previous x y =
        compute_current 10 10 fluidC1 x y) ∧
      (∀ x y, interiorCheck 10 10 x y →
        (update_fluid 10 10 fluidC1).previous x y =
          fluidC1.damping * (2 * fluidC1.previous x y - fluidC1.current x y +
            (1 / 4) * (fluidC1.previous (x - 1) y + fluidC1.previous (x + 1) y +
              fluidC1.previous x (y - 1) + fluidC1.previous x (y + 1) -
              4 * fluidC1.previous x y))) ∧
      (update_fluid 10 10 fluidC1).damping = fluidC1.damping :=
  update_fluid_swap_semantics 10 10 fluidC1

/-- C3: before the buffer swap, the stencil computes for every interior cell
exactly `damping * (2*previous[x,y] - current[x,y] + 0.25*laplacian)` from
the pre-step buffer contents, and update_fluid has no effect beyond the two
buffers (damping is untouched). -/
theorem compute_current_interior (W H : ℤ) (f : Fluid α) (x y : ℤ)
    (h : interiorCheck W H x y) :
    compute_current W H f x y =
      f.damping * (2 * f.previous x y - f.current x y +
        (1 / 4) * (f.previous (x - 1) y + f.previous (x + 1) y +
          f.previous x (y - 1) + f.previous x (y + 1) -
          4 * f.previous x y)) ∧
    (update_fluid W H f).damping = f.damping := by
  constructor
  · rw [compute_current, if_pos h]; ring
  · rfl

/-- Witness for compute_current_interior at cell (4,5) of the injected
scenario field. -/
theorem compute_current_interior_check :
    compute_current 10 10 fluidC1 4 5 =
      fluidC1.damping * (2 * fluidC1.previous 4 5 - fluidC1.current 4 5 +
        (1 / 4) * (fluidC1.previous (4 - 1) 5 + fluidC1.previous (4 + 1) 5 +
          fluidC1.previous 4 (5 - 1) + fluidC1.previous 4 (5 + 1) -
          4 * fluidC1.previous 4 5)) ∧
    (update_fluid 10 10 fluidC1).damping = fluidC1.damping :=
  compute_current_interior 10 10 fluidC1 4 5 (by decide)

/-- Unchecked `previous[idx] += v` at a single cell, as fluid.c performs for
the 8 neighbor writes of its add_disturbance (no per-neighbor bounds test). -/
def bump (f : Fluid α) (x y : ℤ) (v : α) : Fluid α :=
  { f with previous := fun p q =>
      if p = x ∧ q = y then f.previous p q + v
      else f.previous p q }

/-- The 8 neighbor offsets of fluid.c's add_disturbance, in loop order
(dy outer from -1 to 1, dx inner, skipping (0,0)). -/
def neighborOffsets : List (ℤ × ℤ) :=
  [(-1, -1), (0, -1), (1, -1), (-1, 0), (1, 0), (-1, 1), (0, 1), (1, 1)]

/-- add_disturbance of fluid.c (lines 57-71), the wide variant: after the
center range check, add `intensity` at the center and `intensity * 0.5` at
each of the 8 neighbors, the neighbor writes being individually unchecked. -/
def add_disturbance_wide (W H : ℤ) (f : Fluid α) (x y : ℤ) (intensity : α) :
    Fluid α :=
  if interiorCheck W H x y then
    neighborOffsets.foldl
      (fun g d => bump g (x + d.1) (y + d.2) (intensity * (1 / 2)))
      (bump f x y intensity)
  else f

lemma bump_previous (f : Fluid α) (x y : ℤ) (v : α) (p q : ℤ) :
    (bump f x y v).previous p q =
      f.previous p q + if p = x ∧ q = y then v else 0 := by
  rw [bump]
  dsimp only
  split <;> simp

lemma bump_current (f : Fluid α) (x y : ℤ) (v : α) :
    (bump f x y v).current = f.current := rfl

lemma foldl_bump_previous (x y : ℤ) (v : α) (l : List (ℤ × ℤ))
    (f : Fluid α) (p q : ℤ) :
    (l.foldl (fun g d => bump g (x + d.1) (y + d.2) v) f).previous p q =
      f.previous p q +
        (l.map fun d => if p = x + d.1 ∧ q = y + d.2 then v else 0).sum := by
  induction l generalizing f with
  | nil => simp
  | cons d l ih =>
    rw [List.foldl_cons, ih, List.map_cons, List.sum_cons, bump_previous]
    ring

lemma foldl_bump_current (x y : ℤ) (v : α) (l : List (ℤ × ℤ)) (f : Fluid α) :
    (l.foldl (fun g d => bump g (x + d.1) (y + d.2) v) f).current =
      f.current := by
  induction l generalizing f with
  | nil => rfl
  | cons d l ih => rw [List.foldl_cons, ih, bump_current]

/-- C4: a point injection aimed at a border cell or outside the grid is a
no-op for both the narrow (gridfluid.c / realfluid.c) and the wide (fluid.c)
add_disturbance: the whole field, both buffers included, is unchanged. -/
theorem inject_out_of_range (W H x y : ℤ) (f : Fluid α) (I : α)
    (h : x = 0 ∨ x = W - 1 ∨ y = 0 ∨ y = H - 1 ∨
      x < 0 ∨ W ≤ x ∨ y < 0 ∨ H ≤ y) :
    add_disturbance W H f x y I = f ∧ add_disturbance_wide W H f x y I = f := by
  have hc : ¬ interiorCheck W H x y := by rw [interiorCheck]; omega
  exact ⟨if_neg hc, if_neg hc⟩

/-- Witness for inject_out_of_range at the left border of a 10×10 grid. -/
theorem inject_out_of_range_check :
    add_disturbance 10 10 zeroFluid 0 5 1 = zeroFluid ∧
      add_disturbance_wide 10 10 zeroFluid 0 5 1 = zeroFluid :=
  inject_out_of_range 10 10 0 5 zeroFluid 1 (by decide)

/-- C9: for an interior center, the wide point injection of fluid.c touches
only cells with indices inside the allocated `[0,W) × [0,H)` range (its
unchecked neighbor writes never escape the buffer), leaves `current` alone,
and when the center is adjacent to the border it really does write
`0.5 * intensity` into a border cell. -/
theorem add_disturbance_wide_contained (W H x y : ℤ) (f : Fluid α) (I : α)
    (h : interiorCheck W H x y) :
    (∀ p q : ℤ, p < 0 ∨ W ≤ p ∨ q < 0 ∨ H ≤ q →
      (add_disturbance_wide W H f x y I).previous p q = f.previous p q) ∧
    (add_disturbance_wide W H f x y I).current = f.current ∧
    (x = 1 → (add_disturbance_wide W H f x y I).previous 0 y =
      f.previous 0 y + I * (1 / 2)) := by
  have hint : 1 ≤ x ∧ x < W - 1 ∧ 1 ≤ y ∧ y < H - 1 := h
  rw [add_disturbance_wide, if_pos h]
  refine ⟨?_, ?_, ?_⟩
  · intro p q hpq
    rw [foldl_bump_previous, bump_previous]
    have hc : ¬(p = x ∧ q = y) := by omega
    have hs : (neighborOffsets.map fun d =>
        if p = x + d.1 ∧ q = y + d.2 then I * (1 / 2) else 0).sum = 0 := by
      apply List.sum_eq_zero
      intro z hz
      rw [List.mem_map] at hz
      obtain ⟨d, hd, rfl⟩ := hz
      rw [neighborOffsets] at hd
      fin_cases hd <;>
        exact if_neg (by rintro ⟨h1, h2⟩; dsimp only at h1 h2; omega)
    rw [hs, if_neg hc, add_zero, add_zero]
  · rw [foldl_bump_current, bump_current]
  · intro hx1
    subst hx1
    rw [foldl_bump_previous, bump_previous]
    have hc : ¬((0 : ℤ) = 1 ∧ y = y) := by omega
    rw [if_neg hc, add_zero, neighborOffsets]
    simp only [List.map_cons, List.map_nil, List.sum_cons, List.sum_nil]
    norm_num

/-- Witness for add_disturbance_wide_contained with center (1,5) on a 10×10
grid. -/
theorem add_disturbance_wide_contained_check :
    (∀ p q : ℤ, p < 0 ∨ 10 ≤ p ∨ q < 0 ∨ 10 ≤ q →
      (add_disturbance_wide 10 10 zeroFluid 1 5 1).previous p q =
        zeroFluid.previous p q) ∧
    (add_disturbance_wide 10 10 zeroFluid 1 5 1).current = zeroFluid.current ∧
    ((1 : ℤ) = 1 → (add_disturbance_wide 10 10 zeroFluid 1 5 1).previous 0 5 =
      zeroFluid.previous 0 5 + 1 * (1 / 2)) :=
  add_disturbance_wide_contained 10 10 1 5 zeroFluid 1 (by decide)

/-- C1, counterexample to the claim as stated: in the 10×10 scenario (zero
field, damping 0.99, intensity 10 injected at (5,5), one step), the buffer
readable as `current` after the step holds the pre-step injected field
(10 at the center, 0 at the neighbors), not the claimed −9.9 / 2.475; and
even the freshly computed stencil value, which ends up in `previous`, is
+9.9 at the center, not −9.9, because the injection raised `previous[5,5]`
to 10 before the step, so the update reads
0.99 * (2*10 − 0 + 0.25*(0+0+0+0 − 4*10)) = 9.9. -/
theorem end_to_end_counterexample :
    steppedC1.current 5 5 = 10 ∧
    steppedC1.current 4 5 = 0 ∧
    steppedC1.previous 5 5 = 99 / 10 ∧
    ¬ steppedC1.current 5 5 = -(99 / 10) ∧
    ¬ steppedC1.previous 5 5 = -(99 / 10) := by
  norm_num [steppedC1, update_fluid, compute_current, fluidC1,
    add_disturbance, zeroFluid, interiorCheck]

/-- Expected post-step contents of the stencil-output buffer (named
`previous` after the swap) in the C1 scenario. -/
def expectedPrevC1 (x y : ℤ) : ℚ :=
  if x = 5 ∧ y = 5 then 99 / 10
  else if (x = 4 ∧ y = 5) ∨ (x = 6 ∧ y = 5) ∨
      (x = 5 ∧ y = 4) ∨ (x = 5 ∧ y = 6) then 99 / 40
  else 0

/-- Expected post-step contents of the buffer named `current` (the pre-step
injected field) in the C1 scenario. -/
def expectedCurrC1 (x y : ℤ) : ℚ := if x = 5 ∧ y = 5 then 10 else 0

/-- C1, amended: after the injection and one step, the stencil output —
found in the buffer named `previous` after the swap — is 9.9 at (5,5),
2.475 at the four direct neighbors and 0 at every other cell, border cells
included; the buffer named `current` holds the injected pre-step field
(10 at (5,5), 0 elsewhere).  Checked on all 100 cells of the grid. -/
theorem end_to_end_amended :
    ∀ x y : Fin 10,
      steppedC1.previous (x.val : ℤ) (y.val : ℤ) =
        expectedPrevC1 (x.val : ℤ) (y.val : ℤ) ∧
      steppedC1.current (x.val : ℤ) (y.val : ℤ) =
        expectedCurrC1 (x.val : ℤ) (y.val : ℤ) := by
  intro x y
  fin_cases x <;> fin_cases y <;>
    norm_num [steppedC1, update_fluid, compute_current, fluidC1,
      add_disturbance, zeroFluid, interiorCheck, expectedPrevC1,
      expectedCurrC1]

/-- A border cell of the W×H grid: the update loops of all variants run
only over `1 ≤ x < W-1`, `1 ≤ y < H-1`, leaving these cells alone. -/
def onBorder (W H x y : ℤ) : Prop :=
  x = 0 ∨ x = W - 1 ∨ y = 0 ∨ y = H - 1

/-- Both buffers vanish on every border cell. -/
def borderZero (W H : ℤ) (f : Fluid α) : Prop :=
  ∀ x y, onBorder W H x y → f.current x y = 0 ∧ f.previous x y = 0

/-- One interaction of the simulation loop with the field: a step of the
integrator or a point injection. -/
inductive Op (α : Type) where
  | step : Op α
  | inject (x y : ℤ) (v : α) : Op α

/-- Apply one operation to the field. -/
def applyOp (W H : ℤ) (f : Fluid α) : Op α → Fluid α
  | Op.step => update_fluid W H f
  | Op.inject x y v => add_disturbance W H f x y v

/-- Apply a sequence of operations, oldest first. -/
def applyOps (W H : ℤ) (ops : List (Op α)) (f : Fluid α) : Fluid α :=
  ops.foldl (applyOp W H) f

lemma onBorder_not_interior {W H x y : ℤ} (h : onBorder W H x y) :
    ¬ interiorCheck W H x y := by
  rw [interiorCheck]
  rcases h with h | h | h | h <;> omega

lemma applyOp_borderZero (W H : ℤ) (f : Fluid α) (op : Op α)
    (hf : borderZero W H f) : borderZero W H (applyOp W H f op) := by
  cases op with
  | step =>
    intro x y hb
    obtain ⟨hc, hp⟩ := hf x y hb
    refine ⟨hp, ?_⟩
    show compute_current W H f x y = 0
    rw [compute_current, if_neg (onBorder_not_interior hb)]
    exact hc
  | inject a b v =>
    intro x y hb
    obtain ⟨hc, hp⟩ := hf x y hb
    rw [applyOp, add_disturbance]
    by_cases hg : interiorCheck W H a b
    · rw [if_pos hg]
      refine ⟨hc, ?_⟩
      show (if x = a ∧ y = b then f.previous x y + v else f.previous x y) = 0
      rw [if_neg ?_, hp]
      rintro ⟨rfl, rfl⟩
      exact onBorder_not_interior hb hg
    · rw [if_neg hg]
      exact ⟨hc, hp⟩

/-- C5: the integrator never alters a border cell — after update_fluid the
value at a border cell of each buffer is exactly the value that buffer
pointer exchange moved there, untouched by the stencil loop — and
consequently the border-zero property is preserved by every sequence of
steps and point injections, so starting from the zero field the border
stays exactly zero. -/
theorem border_inert (W H : ℤ) :
    (∀ f : Fluid α, ∀ x y, onBorder W H x y →
      (update_fluid W H f).previous x y = f.current x y ∧
      (update_fluid W H f).current x y = f.previous x y) ∧
    (∀ (ops : List (Op α)) (f : Fluid α), borderZero W H f →
      borderZero W H (applyOps W H ops f)) := by
  constructor
  · intro f x y hb
    refine ⟨?_, rfl⟩
    show compute_current W H f x y = f.current x y
    rw [compute_current, if_neg (onBorder_not_interior hb)]
  · intro ops
    induction ops with
    | nil => exact fun f hf => hf
    | cons op ops ih =>
      intro f hf
      exact ih (applyOp W H f op) (applyOp_borderZero W H f op hf)

/-- Witness for border_inert: a border cell on a 10×10 grid, and the
border-zero invariant through an interior injection followed by a step,
starting from the zero field. -/
theorem border_inert_check :
    ((update_fluid 10 10 zeroFluid).previous 0 3 = zeroFluid.current 0 3 ∧
      (update_fluid 10 10 zeroFluid).current 0 3 = zeroFluid.previous 0 3) ∧
    borderZero 10 10 (applyOps 10 10 [Op.inject 5 5 1, Op.step] zeroFluid) :=
  ⟨(border_inert 10 10).1 zeroFluid 0 3 (Or.inl rfl),
    (border_inert 10 10).2 [Op.inject 5 5 1, Op.step] zeroFluid
      (fun _ _ _ => ⟨rfl, rfl⟩)⟩

lemma shiftLeft_lor_eq_add : ∀ (n a b : ℕ), b < 2 ^ n →
    (a <<< n) ||| b = a * 2 ^ n + b := by
  intro n
  induction n with
  | zero =>
    intro a b hb
    interval_cases b
    simp [Nat.shiftLeft_eq]
  | succ n ih =>
    intro a b hb
    have hdecomp : Nat.bit (b.testBit 0) (b >>> 1) = b :=
      Nat.bit_testBit_zero_shiftRight_one b
    have hpow : (2 : ℕ) ^ (n + 1) = 2 * 2 ^ n := by ring
    have hb2 : b >>> 1 = b / 2 := Nat.shiftRight_one b
    have hb' : b >>> 1 < 2 ^ n := by omega
    have hsl : a <<< (n + 1) = Nat.bit false (a <<< n) := by
      rw [Nat.bit_val, Nat.shiftLeft_eq, Nat.shiftLeft_eq]
      simp
      ring
    have hbval : 2 * (b >>> 1) + (b.testBit 0).toNat = b := by
      conv_rhs => rw [← hdecomp]
      rw [Nat.bit_val]
    calc a <<< (n + 1) ||| b
        = Nat.bit false (a <<< n) ||| Nat.bit (b.testBit 0) (b >>> 1) := by
          rw [hdecomp, hsl]
      _ = Nat.bit (false || b.testBit 0) ((a <<< n) ||| (b >>> 1)) :=
          Nat.lor_bit _ _ _ _
      _ = Nat.bit (b.testBit 0) (a * 2 ^ n + b >>> 1) := by
          rw [ih a _ hb', Bool.false_or]
      _ = a * 2 ^ (n + 1) + b := by
          rw [Nat.bit_val, hpow,
            show a * (2 * 2 ^ n) = 2 * (a * 2 ^ n) from by ring]
          omega

lemma pack_bytes (r g b : ℕ) (hr : r ≤ 255) (hg : g ≤ 255) (hb : b ≤ 255) :
    (r <<< 16) ||| (g <<< 8) ||| b ||| 0xFF000000 =
      255 * 2 ^ 24 + (r * 2 ^ 16 + (g * 2 ^ 8 + b)) := by
  rw [show (0xFF000000 : ℕ) = 255 <<< 24 by norm_num [Nat.shiftLeft_eq],
    Nat.lor_assoc (r <<< 16) (g <<< 8) b,
    shiftLeft_lor_eq_add 8 g b (by omega),
    shiftLeft_lor_eq_add 16 r (g * 2 ^ 8 + b) (by omega),
    Nat.lor_comm _ (255 <<< 24),
    shiftLeft_lor_eq_add 24 255 _ (by omega)]

lemma pack_bytes_bw (v : ℕ) (hv : v ≤ 255) :
    (0xFF <<< 24) ||| (v <<< 16) ||| (v <<< 8) ||| v =
      255 * 2 ^ 24 + (v * 2 ^ 16 + (v * 2 ^ 8 + v)) := by
  rw [Nat.lor_assoc, Nat.lor_assoc,
    shiftLeft_lor_eq_add 8 v v (by omega),
    shiftLeft_lor_eq_add 16 v _ (by omega)]
  exact shiftLeft_lor_eq_add 24 255 _ (by omega)

/-- The clamp written `fminf(fmaxf(r, 0.0f), 1.0f)` in realfluid.c. -/
def clamp01 (r : ℚ) : ℚ := min (max r 0) 1

/-- The foam term of water_color (realfluid.c lines 159-161):
`fminf(fmaxf(0, height - 0.3) * 3, 1)`. -/
def foamTerm (height : ℚ) : ℚ := min (max 0 (height - 3 / 10) * 3) 1

/-- The light term of water_color (realfluid.c lines 163-165):
`fminf(fmaxf(0, height) * 1.5, 0.8)`. -/
def lightTerm (height : ℚ) : ℚ := min (max 0 height * (3 / 2)) (4 / 5)

/-- The clamped red channel of water_color: base 0.1 + foam + light*0.3. -/
def rChan (h : ℚ) : ℚ := clamp01 (1 / 10 + foamTerm h + lightTerm h * (3 / 10))

/-- The clamped green channel of water_color: base 0.2 + foam*0.8 +
light*0.4. -/
def gChan (h : ℚ) : ℚ :=
  clamp01 (2 / 10 + foamTerm h * (8 / 10) + lightTerm h * (4 / 10))

/-- The clamped blue channel of water_color: base 0.4 + foam + light*0.2. -/
def bChan (h : ℚ) : ℚ := clamp01 (4 / 10 + foamTerm h + lightTerm h * (2 / 10))

/-- water_color (realfluid.c lines 151-181): map a height to a packed ARGB
color.  Takes x, y and time like the source but never reads them (the source
also computes an unused `wave_intensity`).  The `(uint32_t)(r * 255)` casts
truncate; the operands are nonnegative, so truncation is the floor. -/
def water_color (height x y : ℚ) (time : ℕ) : ℕ :=
  ((rChan height * 255).floor.toNat <<< 16) |||
    ((gChan height * 255).floor.toNat <<< 8) |||
    (bChan height * 255).floor.toNat ||| 0xFF000000

/-- The clamped grayscale intensity of bw_water_color (realfluid.c lines
183-198): `|height| * 3`, lightened by `(height - 0.2) * 4 * 0.5` above the
0.2 foam threshold, clamped to [0,1]. -/
def bwIntensity (h : ℚ) : ℚ :=
  clamp01 (if h > 2 / 10 then |h| * 3 - (h - 2 / 10) * 4 * (1 / 2) else |h| * 3)

/-- The `uint8_t value = (uint8_t)((1.0f - intensity) * 255)` byte of
bw_water_color. -/
def vByte (h : ℚ) : ℕ := ((1 - bwIntensity h) * 255).floor.toNat

/-- bw_water_color (realfluid.c lines 183-198): grayscale packed ARGB. -/
def bw_water_color (h : ℚ) : ℕ :=
  (0xFF <<< 24) ||| (vByte h <<< 16) ||| (vByte h <<< 8) ||| vByte h

lemma clamp01_nonneg (r : ℚ) : 0 ≤ clamp01 r :=
  le_min (le_max_right r 0) zero_le_one

lemma clamp01_le_one (r : ℚ) : clamp01 r ≤ 1 := min_le_right _ _

lemma byte_le (v : ℚ) (h1 : v ≤ 1) : (v * 255).floor.toNat ≤ 255 := by
  have hle : (v * 255 : ℚ) ≤ 255 := by nlinarith
  have hf : (v * 255).floor ≤ ((255 : ℚ)).floor := Int.floor_le_floor hle
  rw [show ((255 : ℚ)).floor = 255 by rfl] at hf
  omega

/-- C8: for every height (any finite rational, large magnitudes and zero
included) both color mappers produce channel bytes within [0,255] and pack
them with a fully opaque alpha byte: the 32-bit output decomposes exactly
into alpha 255 and the three in-range channel bytes, with no overflow into
neighboring bytes. -/
theorem color_mappers_bounded (h x y : ℚ) (t : ℕ) :
    ((rChan h * 255).floor.toNat ≤ 255 ∧
      (gChan h * 255).floor.toNat ≤ 255 ∧
      (bChan h * 255).floor.toNat ≤ 255 ∧
      water_color h x y t =
        255 * 2 ^ 24 + ((rChan h * 255).floor.toNat * 2 ^ 16 +
          ((gChan h * 255).floor.toNat * 2 ^ 8 +
            (bChan h * 255).floor.toNat)) ∧
      water_color h x y t / 2 ^ 24 = 255) ∧
    (vByte h ≤ 255 ∧
      bw_water_color h =
        255 * 2 ^ 24 + (vByte h * 2 ^ 16 + (vByte h * 2 ^ 8 + vByte h)) ∧
      bw_water_color h / 2 ^ 24 = 255) := by
  have hr := byte_le (rChan h) (clamp01_le_one _)
  have hg := byte_le (gChan h) (clamp01_le_one _)
  have hb := byte_le (bChan h) (clamp01_le_one _)
  have hv : vByte h ≤ 255 := by
    apply byte_le
    have := clamp01_nonneg
      (if h > 2 / 10 then |h| * 3 - (h - 2 / 10) * 4 * (1 / 2) else |h| * 3)
    rw [bwIntensity]
    linarith
  have hwc : water_color h x y t =
      255 * 2 ^ 24 + ((rChan h * 255).floor.toNat * 2 ^ 16 +
        ((gChan h * 255).floor.toNat * 2 ^ 8 + (bChan h * 255).floor.toNat)) :=
    pack_bytes _ _ _ hr hg hb
  have hbw : bw_water_color h =
      255 * 2 ^ 24 + (vByte h * 2 ^ 16 + (vByte h * 2 ^ 8 + vByte h)) :=
    pack_bytes_bw _ hv
  refine ⟨⟨hr, hg, hb, hwc, ?_⟩, hv, hbw, ?_⟩
  · rw [hwc]; omega
  · rw [hbw]; omega

/-- C10: water_color reads only its height argument; the x, y and time
arguments never influence the packed color. -/
theorem water_color_depends_only_on_height (h a₁ b₁ a₂ b₂ : ℚ) (t₁ t₂ : ℕ) :
    water_color h a₁ b₁ t₁ = water_color h a₂ b₂ t₂ := rfl

/-- A zero-filled real-valued field with damping 0.99. -/
noncomputable def zeroFluidR : Fluid ℝ :=
  { current := fun _ _ => 0, previous := fun _ _ => 0, damping := 99 / 100 }

/-- Truncation toward zero: the C `(int)` cast applied to a float value. -/
def itrunc (r : ℚ) : ℤ := if 0 ≤ r then ⌊r⌋ else ⌈r⌉

/-- The values -2..2 of the inner loop counters of gridfluid.c's
add_continuous_wave. -/
def offsets5 : List ℤ := [-2, -1, 0, 1, 2]

/-- The values -3..3 of the loop counters of add_velocity_field. -/
def offsets7 : List ℤ := [-3, -2, -1, 0, 1, 2, 3]

/-- The 5×5 offset square iterated by the inner loops of gridfluid.c's
add_continuous_wave (dy outer from -2 to 2, dx inner). -/
def squareOffsets2 : List (ℤ × ℤ) :=
  offsets5.flatMap fun j => offsets5.map fun i => (i, j)

/-- The 7×7 offset square iterated by the loops of gridfluid.c's
add_velocity_field (dy outer from -3 to 3, dx inner). -/
def squareOffsets3 : List (ℤ × ℤ) :=
  offsets7.flatMap fun j => offsets7.map fun i => (i, j)

/-- The per-offset wave factor of add_velocity_field (gridfluid.c line
113): `cosf(dist * 0.8f) * (1.0f - dist/3.0f)` with
`dist = sqrtf(dx*dx + dy*dy)`. -/
noncomputable def radial_wave (dx dy : ℤ) : ℝ :=
  Real.cos (Real.sqrt ((dx : ℝ) ^ 2 + (dy : ℝ) ^ 2) * 0.8) *
    (1 - Real.sqrt ((dx : ℝ) ^ 2 + (dy : ℝ) ^ 2) / 3)

/-- add_velocity_field (gridfluid.c lines 105-120): center range check with
margin 2, then for every offset in the 7×7 square whose distance is at most
3 (the float test `sqrtf(dx*dx+dy*dy) <= 3.0f`, rendered by the equivalent
integer test `dx^2 + dy^2 ≤ 9`), a guarded point injection of
`intensity * wave` at the offset cell. -/
noncomputable def add_velocity_field (W H : ℤ) (f : Fluid ℝ) (x y : ℤ)
    (intensity : ℝ) : Fluid ℝ :=
  if 2 ≤ x ∧ x < W - 2 ∧ 2 ≤ y ∧ y < H - 2 then
    squareOffsets3.foldl
      (fun g d =>
        if d.1 ^ 2 + d.2 ^ 2 ≤ 9 then
          add_disturbance W H g (x + d.1) (y + d.2)
            (intensity * radial_wave d.1 d.2)
        else g) f
  else f

/-- add_continuous_wave of gridfluid.c (lines 69-103).  The degenerate test
`distance < 1.0f` (distance = `sqrtf(dx*dx+dy*dy)` on integer deltas) is
rendered by the equivalent integer test on the squared distance.  Otherwise
`steps = (int)(distance * 2.0f) + 1` is `⌊2·√d2⌋ + 1 = Nat.sqrt (4·d2) + 1`,
and each of the `steps + 1` samples truncates `x1 + dx*t`, `y1 + dy*t`
(`t = i/steps`) to a cell and injects a 5×5 falloff disk of intensity
`current_intensity * falloff * 0.5` around it via the guarded
add_disturbance (`falloff = 1 - dist/2` for offsets with dist ≤ 2). -/
noncomputable def add_continuous_wave (W H : ℤ) (f : Fluid ℝ)
    (x1 y1 x2 y2 : ℤ) (intensity : ℝ) : Fluid ℝ :=
  if (x2 - x1) ^ 2 + (y2 - y1) ^ 2 < 1 then
    add_disturbance W H f x1 y1 intensity
  else
    let steps : ℕ := Nat.sqrt (4 * ((x2 - x1) ^ 2 + (y2 - y1) ^ 2).toNat) + 1
    (List.range (steps + 1)).foldl
      (fun g i =>
        let t : ℚ := (i : ℚ) / (steps : ℚ)
        let cx : ℤ := itrunc ((x1 : ℚ) + ((x2 - x1 : ℤ) : ℚ) * t)
        let cy : ℤ := itrunc ((y1 : ℚ) + ((y2 - y1 : ℤ) : ℚ) * t)
        squareOffsets2.foldl
          (fun g2 d =>
            if d.1 ^ 2 + d.2 ^ 2 ≤ 4 then
              add_disturbance W H g2 (cx + d.1) (cy + d.2)
                (intensity * (1 - (t : ℝ) * 0.3) *
                  (1 - Real.sqrt ((d.1 : ℝ) ^ 2 + (d.2 : ℝ) ^ 2) / 2) * 0.5)
            else g2) g) f

/-- add_continuous_wave of realfluid.c (lines 104-130): same degenerate
fallback; otherwise `steps = (int)(distance * 1.5f) + 1`, rendered as
`⌊(3/2)·√d2⌋ + 1 = Nat.sqrt (9·d2) / 2 + 1`, and each sample injects a
single fading point, guarded by an extra margin-2 range test on the sample
cell. -/
noncomputable def add_continuous_wave_rf (W H : ℤ) (f : Fluid ℝ)
    (x1 y1 x2 y2 : ℤ) (intensity : ℝ) : Fluid ℝ :=
  if (x2 - x1) ^ 2 + (y2 - y1) ^ 2 < 1 then
    add_disturbance W H f x1 y1 intensity
  else
    let steps : ℕ := Nat.sqrt (9 * ((x2 - x1) ^ 2 + (y2 - y1) ^ 2).toNat) / 2 + 1
    (List.range (steps + 1)).foldl
      (fun g i =>
        let t : ℚ := (i : ℚ) / (steps : ℚ)
        let cx : ℤ := itrunc ((x1 : ℚ) + ((x2 - x1 : ℤ) : ℚ) * t)
        let cy : ℤ := itrunc ((y1 : ℚ) + ((y2 - y1 : ℤ) : ℚ) * t)
        if 2 ≤ cx ∧ cx < W - 2 ∧ 2 ≤ cy ∧ cy < H - 2 then
          add_disturbance W H g cx cy (intensity * (1 - (t : ℝ) * 0.3))
        else g) f

/-- C7: when the two endpoints of a drag segment coincide (Euclidean
distance strictly below 1, which for integer cell coordinates means
equality), both add_continuous_wave variants behave exactly as a single
point injection of the unmodified intensity at the shared coordinate. -/
theorem coincident_endpoints_single_point (W H x1 y1 x2 y2 : ℤ)
    (f : Fluid ℝ) (I : ℝ)
    (h : Real.sqrt (((x2 - x1 : ℤ) : ℝ) ^ 2 + ((y2 - y1 : ℤ) : ℝ) ^ 2) < 1) :
    add_continuous_wave W H f x1 y1 x2 y2 I = add_disturbance W H f x1 y1 I ∧
    add_continuous_wave_rf W H f x1 y1 x2 y2 I =
      add_disturbance W H f x1 y1 I := by
  have hd : (x2 - x1) ^ 2 + (y2 - y1) ^ 2 < 1 := by
    by_contra hge
    push_neg at hge
    have h1 : (1 : ℝ) ≤ ((x2 - x1 : ℤ) : ℝ) ^ 2 + ((y2 - y1 : ℤ) : ℝ) ^ 2 := by
      have := hge
      push_cast
      exact_mod_cast this
    have h2 := Real.sqrt_le_sqrt h1
    rw [Real.sqrt_one] at h2
    linarith
  exact ⟨if_pos hd, if_pos hd⟩

/-- Witness for coincident_endpoints_single_point at the shared coordinate
(5,5). -/
theorem coincident_endpoints_single_point_check :
    add_continuous_wave 10 10 zeroFluidR 5 5 5 5 1 =
      add_disturbance 10 10 zeroFluidR 5 5 1 ∧
    add_continuous_wave_rf 10 10 zeroFluidR 5 5 5 5 1 =
      add_disturbance 10 10 zeroFluidR 5 5 1 :=
  coincident_endpoints_single_point 10 10 5 5 5 5 zeroFluidR 1
    (by norm_num [Real.sqrt_zero])

lemma add_disturbance_previous (W H : ℤ) (f : Fluid α) (x y : ℤ) (v : α)
    (p q : ℤ) :
    (add_disturbance W H f x y v).previous p q =
      f.previous p q +
        if interiorCheck W H x y ∧ p = x ∧ q = y then v else 0 := by
  rw [add_disturbance]
  by_cases hg : interiorCheck W H x y
  · rw [if_pos hg]
    dsimp only
    by_cases hpq : p = x ∧ q = y
    · rw [if_pos hpq, if_pos ⟨hg, hpq⟩]
    · rw [if_neg hpq, if_neg (fun hc => hpq hc.2), add_zero]
  · rw [if_neg hg, if_neg (fun hc => hg hc.1), add_zero]

lemma foldl_vf_previous (W H x y : ℤ) (I : ℝ) (l : List (ℤ × ℤ))
    (f : Fluid ℝ) (p q : ℤ) :
    (l.foldl
        (fun g d =>
          if d.1 ^ 2 + d.2 ^ 2 ≤ 9 then
            add_disturbance W H g (x + d.1) (y + d.2)
              (I * radial_wave d.1 d.2)
          else g) f).previous p q =
      f.previous p q +
        (l.map fun d =>
          if (d.1 ^ 2 + d.2 ^ 2 ≤ 9) ∧
              interiorCheck W H (x + d.1) (y + d.2) ∧
              p = x + d.1 ∧ q = y + d.2 then
            I * radial_wave d.1 d.2
          else 0).sum := by
  induction l generalizing f with
  | nil => simp
  | cons d l ih =>
    have hstep : ((if d.1 ^ 2 + d.2 ^ 2 ≤ 9 then
        add_disturbance W H f (x + d.1) (y + d.2) (I * radial_wave d.1 d.2)
      else f)).previous p q =
        f.previous p q +
          (if (d.1 ^ 2 + d.2 ^ 2 ≤ 9) ∧
              interiorCheck W H (x + d.1) (y + d.2) ∧
              p = x + d.1 ∧ q = y + d.2 then
            I * radial_wave d.1 d.2
          else 0) := by
      by_cases hc : d.1 ^ 2 + d.2 ^ 2 ≤ 9
      · rw [if_pos hc, add_disturbance_previous,
          if_congr (and_iff_right hc) rfl rfl]
      · rw [if_neg hc, if_neg (fun hx => hc hx.1), add_zero]
    rw [List.foldl_cons, ih, hstep, List.map_cons, List.sum_cons]
    ring

lemma sum_map_single (F G : ℤ × ℤ → ℝ) (d : ℤ × ℤ) :
    ∀ l : List (ℤ × ℤ), l.Nodup → d ∈ l →
      (∀ e ∈ l, G e = if e = d then F e else 0) → (l.map G).sum = F d := by
  intro l
  induction l with
  | nil => intro _ hd; cases hd
  | cons e l ih =>
    intro hnd hd hG
    rw [List.map_cons, List.sum_cons]
    rcases List.mem_cons.mp hd with heq | hmem
    · subst heq
      rw [hG d (List.mem_cons_self d l), if_pos rfl]
      have hz : (l.map G).sum = 0 := by
        apply List.sum_eq_zero
        intro z hz
        rw [List.mem_map] at hz
        obtain ⟨e', he', rfl⟩ := hz
        have hne : e' ≠ d := fun hcon =>
          (List.nodup_cons.mp hnd).1 (hcon ▸ he')
        rw [hG e' (List.mem_cons_of_mem d he'), if_neg hne]
      rw [hz, add_zero]
    · have hne : e ≠ d := fun hcon =>
        (List.nodup_cons.mp hnd).1 (hcon ▸ hmem)
      rw [hG e (List.mem_cons_self e l), if_neg hne, zero_add]
      exact ih (List.nodup_cons.mp hnd).2 hmem
        (fun e' he' => hG e' (List.mem_cons_of_mem e he'))

lemma mem_offsets7 (a : ℤ) : a ∈ offsets7 ↔ -3 ≤ a ∧ a ≤ 3 := by
  rw [offsets7]
  simp only [List.mem_cons, List.not_mem_nil, or_false]
  omega

lemma mem_squareOffsets3 (d : ℤ × ℤ) :
    d ∈ squareOffsets3 ↔ -3 ≤ d.1 ∧ d.1 ≤ 3 ∧ -3 ≤ d.2 ∧ d.2 ≤ 3 := by
  rw [squareOffsets3, List.mem_flatMap]
  constructor
  · rintro ⟨j, hj, hd⟩
    rw [List.mem_map] at hd
    obtain ⟨i, hi, heq⟩ := hd
    rw [mem_offsets7] at hj hi
    subst heq
    exact ⟨hi.1, hi.2, hj.1, hj.2⟩
  · rintro ⟨h1, h2, h3, h4⟩
    refine ⟨d.2, (mem_offsets7 d.2).mpr ⟨h3, h4⟩, ?_⟩
    rw [List.mem_map]
    exact ⟨d.1, (mem_offsets7 d.1).mpr ⟨h1, h2⟩, by cases d; rfl⟩

lemma squareOffsets3_nodup : squareOffsets3.Nodup := by decide

/-- C6, amended: the center range check of add_velocity_field has margin 2,
not the disk radius 3; when the center is additionally at least 4 cells
away from every border — so that every offset of the distance-3 disk lands
on an interior cell and no write is dropped — the call adds exactly
`intensity * cos(dist * 0.8) * (1 - dist/3)` to `previous[x+dx, y+dy]` for
every offset (dx,dy) with `dx² + dy² ≤ 9`. -/
theorem add_velocity_field_disk (W H x y dx dy : ℤ) (f : Fluid ℝ) (I : ℝ)
    (hx1 : 4 ≤ x) (hx2 : x ≤ W - 5) (hy1 : 4 ≤ y) (hy2 : y ≤ H - 5)
    (hd : dx ^ 2 + dy ^ 2 ≤ 9) :
    (add_velocity_field W H f x y I).previous (x + dx) (y + dy) =
      f.previous (x + dx) (y + dy) + I * radial_wave dx dy := by
  have hdx1 : -3 ≤ dx := by nlinarith
  have hdx2 : dx ≤ 3 := by nlinarith
  have hdy1 : -3 ≤ dy := by nlinarith
  have hdy2 : dy ≤ 3 := by nlinarith
  have hcenter : 2 ≤ x ∧ x < W - 2 ∧ 2 ≤ y ∧ y < H - 2 := by omega
  rw [add_velocity_field, if_pos hcenter, foldl_vf_previous]
  congr 1
  refine sum_map_single (fun e => I * radial_wave e.1 e.2) _ (dx, dy)
    squareOffsets3 squareOffsets3_nodup
    ((mem_squareOffsets3 (dx, dy)).mpr ⟨hdx1, hdx2, hdy1, hdy2⟩) ?_
  intro e he
  rw [mem_squareOffsets3] at he
  obtain ⟨e1, e2⟩ := e
  by_cases hed : (e1, e2) = (dx, dy)
  · rw [if_pos hed]
    obtain ⟨rfl, rfl⟩ := Prod.mk.injEq .. |>.mp hed
    have hInt : interiorCheck W H (x + e1) (y + e2) := by
      rw [interiorCheck]
      dsimp only at he
      omega
    rw [if_pos ⟨hd, hInt, rfl, rfl⟩]
  · rw [if_neg hed, if_neg]
    rintro ⟨-, -, h1, h2⟩
    apply hed
    rw [Prod.mk.injEq]
    dsimp only at h1 h2
    omega

/-- Witness for add_velocity_field_disk on a 12×12 grid, center (5,5),
offset (1,0). -/
theorem add_velocity_field_disk_check :
    (add_velocity_field 12 12 zeroFluidR 5 5 1).previous (5 + 1) (5 + 0) =
      zeroFluidR.previous (5 + 1) (5 + 0) + 1 * radial_wave 1 0 :=
  add_velocity_field_disk 12 12 5 5 1 0 zeroFluidR 1 (by norm_num)
    (by norm_num) (by norm_num) (by norm_num) (by norm_num)

/-- C6, counterexample to the claim as stated: on a 10×10 grid the center
(2,5) passes the source's margin-2 range check, but the offset (-2,0) of
the distance-3 disk targets the border cell (0,5), whose guarded write is
dropped: `previous[0,5]` stays 0, while the claimed added amount
`1 * cos(2*0.8) * (1 - 2/3)` is nonzero.  The check is not widened to the
disk radius and disk writes are dropped. -/
theorem add_velocity_field_drops_edge_write :
    (2 ≤ (2 : ℤ) ∧ (2 : ℤ) < 10 - 2 ∧ 2 ≤ (5 : ℤ) ∧ (5 : ℤ) < 10 - 2) ∧
    (add_velocity_field 10 10 zeroFluidR 2 5 1).previous 0 5 = 0 ∧
    1 * radial_wave (-2) 0 ≠ 0 := by
  refine ⟨by norm_num, ?_, ?_⟩
  · rw [add_velocity_field, if_pos (by norm_num), foldl_vf_previous]
    rw [show zeroFluidR.previous 0 5 = 0 from rfl, zero_add]
    apply List.sum_eq_zero
    intro z hz
    rw [List.mem_map] at hz
    obtain ⟨d, hd, rfl⟩ := hz
    refine if_neg ?_
    rintro ⟨-, hint, h1, h2⟩
    rw [interiorCheck] at hint
    omega
  · have hsqrt : Real.sqrt (((-2 : ℤ) : ℝ) ^ 2 + ((0 : ℤ) : ℝ) ^ 2) = 2 := by
      rw [show (((-2 : ℤ) : ℝ) ^ 2 + ((0 : ℤ) : ℝ) ^ 2) = 2 ^ 2 by norm_num,
        Real.sqrt_sq (by norm_num : (0 : ℝ) ≤ 2)]
    rw [radial_wave, hsqrt]
    have hcos : Real.cos (2 * 0.8) < 0 := by
      apply Real.cos_neg_of_pi_div_two_lt_of_lt
      · have h := Real.pi_lt_d2
        norm_num
        linarith
      · have h := Real.pi_gt_three
        norm_num
        linarith
    have hfac : (0 : ℝ) < 1 - 2 / 3 := by norm_num
    have : 1 * (Real.cos (2 * 0.8) * (1 - 2 / 3)) < 0 := by nlinarith
    exact ne_of_lt this

end FluidSim
